import Mathlib

/-!
Verification of the core of the neural-tangents library against its
natural-language specification.

The development shallowly embeds the Python sources:

* `neural_tangents/utils/batch.py` — the serial/parallel batching engine.
  Datasets are Lean lists, a kernel result is an index function
  `Mat := ℕ → ℕ → ℚ` (the value stored at row `i`, column `j` of the
  kernel array; `numpy` reshape/transpose steps become the corresponding
  index arithmetic, with row-major layout).  Device placement
  (`store_on_device`, `jit`, `device_get`) is value-preserving in the
  source and is therefore not part of the value model.
* `neural_tangents/utils/empirical.py` — direct and implicit empirical
  NTK.  The external autodiff collaborator (`jax.api.jacobian/jvp/vjp`)
  is given its standard mathematical semantics: the function under
  kernelization enters both algorithms only through its per-leaf
  Jacobians at the given parameters, and `jacobian` of a map that is
  linear in its argument is evaluation at one-hot inputs.
* `neural_tangents/utils/monte_carlo.py` — the Monte Carlo sampler.
  `jax.random.split` is an abstract function `Key → Key × Key`.
* `neural_tangents/utils/utils.py` — the named-result adapter
  (`canonicalize_get`, `named_tuple_factory`, `get_namedtuple`).
  Dynamically created namedtuple types are identified by a numeric id
  handed out by an explicit cache state.

Rationals stand for the floating point values: all claims about numeric
agreement are stated "up to floating-point summation order", which is
exact arithmetic on the reordered sums.
-/

namespace NeuralTangents

variable {α β : Type} {ε : Type}

/-- A kernel array of rank 2, as an index function (row-major `numpy`
array semantics; out-of-range reads are junk and never relied upon). -/
abbrev Mat := ℕ → ℕ → ℚ

/-- Errors raised by `batch.py`.  Each constructor carries exactly the
quantities interpolated into the corresponding Python error message
(`serial_fn` lines 150-163, `parallel_fn` lines 219-223). -/
inductive BatchErr where
  | sizeMismatchX1 (n1 : ℕ) (effectiveBatchSize : ℕ) (deviceNote : Option ℕ)
  | sizeMismatchX2 (n2 : ℕ) (batchSize : ℕ)
  | sizeMismatchParallel (n1 : ℕ) (deviceCount : ℕ)
deriving DecidableEq

/-- A kernel-computing function `kernel_fn(x1, x2)` in the sense of
`batch.py`: it receives two datasets and either raises or returns a
kernel array of shape `[len x1, len x2]`. -/
abbrev KernelFun (α : Type) := List α → List α → Except BatchErr Mat

/-- Entry `(i, j)` of the reference (unbatched) kernel of the pointwise
kernel function `k` on datasets `x1`, `x2`. -/
def kAt (k : α → α → ℚ) (x1 x2 : List α) (i j : ℕ) : ℚ :=
  match x1[i]?, x2[j]? with
  | some a, some b => k a b
  | _, _ => 0

/-- The unbatched kernel function computing `k` elementwise; the
reference semantics that batching must preserve. -/
def pointKernel (k : α → α → ℚ) : KernelFun α := fun x1 x2 => .ok (kAt k x1 x2)

/-- Junk value for out-of-range reads. -/
def zeroMat : Mat := fun _ _ => 0

/-- `np.reshape(x, (len x / t, t) + …)`: split a list into consecutive
chunks of size `t`. -/
def chunk (t : ℕ) : List α → List (List α)
  | [] => []
  | x :: xs =>
    if t = 0 then []
    else ((x :: xs).take t) :: chunk t ((x :: xs).drop t)
termination_by xs => xs.length
decreasing_by
  simp only [List.length_drop, List.length_cons]
  omega

/-- Structural `mapM` in the `Except` monad (the loop bodies of `_scan`
and the per-shard dispatch of `pmap`). -/
def mapE (f : α → Except ε β) : List α → Except ε (List β)
  | [] => .ok []
  | a :: l =>
    match f a with
    | .error e => .error e
    | .ok b =>
      match mapE f l with
      | .error e => .error e
      | .ok bs => .ok (b :: bs)

/-- Extract the payload of a succeeding `Except`. -/
def okElse (r : Except ε β) (d : β) : β :=
  match r with
  | .ok b => b
  | .error _ => d

/-- List indexing with a default (`l[i]` of a stacked `numpy` axis). -/
def nthD (l : List β) (i : ℕ) (d : β) : β := (l[i]?).getD d

/-- `_serial` from `batch.py` (lines 100-177): split `x1` into row tiles
of size `batch_size` (times `device_count` when the wrapped function
carries the parallel marker), `x2` into column tiles of `batch_size`,
fail on ragged splits, evaluate the grid of tiles row-major, and flatten
it back (the even-rank branch of `_flatten_batch_dimensions`:
`transpose (0, 2, 1, 3)` followed by a merging reshape, i.e. row-major
index arithmetic `p ↦ (p / tile, p % tile)`). -/
def serial_fn (kernel_fn : KernelFun α) (is_parallel : Bool) (device_count : ℕ)
    (batch_size : ℕ) : KernelFun α := fun x1 x2 =>
  let n1 := x1.length
  let n2 := x2.length
  let n1_batch_size := if is_parallel then batch_size * device_count else batch_size
  if n1 % n1_batch_size ≠ 0 then
    .error (.sizeMismatchX1 n1 n1_batch_size (if is_parallel then some device_count else none))
  else if n2 % batch_size ≠ 0 then
    .error (.sizeMismatchX2 n2 batch_size)
  else
    let x1s := chunk n1_batch_size x1
    let x2s := chunk batch_size x2
    match mapE (fun c1 => mapE (fun c2 => kernel_fn c1 c2) x2s) x1s with
    | .error e => .error e
    | .ok grid =>
      .ok fun p q =>
        nthD (nthD grid (p / n1_batch_size) []) (q / batch_size) zeroMat
          (p % n1_batch_size) (q % batch_size)

/-- The shard plan of `parallel_fn` (`batch.py` lines 217-227): the pair
`(_device_count, n1_per_device)` after the degradation branch. -/
def parallel_plan (n1 device_count : ℕ) : ℕ × ℕ :=
  let n1_per_device := n1 / device_count
  if n1_per_device = 0 then (n1 % device_count, 1) else (device_count, n1_per_device)

/-- `_parallel` from `batch.py` (lines 180-237) with the device count
already resolved (`-1` is resolved to the number of available devices at
wrap time, line 205-206): shard `x1` across devices, broadcast `x2`,
run the wrapped function per shard, stack, and flatten the odd-rank
result (a merging reshape of the leading two axes). -/
def parallel_fn (kernel_fn : KernelFun α) (device_count : ℕ) : KernelFun α := fun x1 x2 =>
  let n1 := x1.length
  if n1 / device_count ≠ 0 ∧ n1 % device_count ≠ 0 then
    .error (.sizeMismatchParallel n1 device_count)
  else
    let npd := (parallel_plan n1 device_count).2
    match mapE (fun s => kernel_fn s x2) (chunk npd x1) with
    | .error e => .error e
    | .ok mats => .ok fun p q => nthD mats (p / npd) zeroMat (p % npd) q

/-- A stack of batching wrappers applied around the unbatched kernel
function: the composable orderings of `_serial` and `_parallel`. -/
inductive Wrap where
  | base : Wrap
  | serial : Wrap → ℕ → Wrap
  | par : Wrap → ℕ → Wrap
deriving DecidableEq

/-- `hasattr(kernel_fn, 'is_parallel')`: only `_parallel` sets the
marker attribute on the function it returns (`batch.py` lines 232-235). -/
def isPar : Wrap → Bool
  | .par _ _ => true
  | _ => false

/-- The `device_count` attribute read by `_serial` when the marker is
present (`batch.py` lines 129-131). -/
def dcOf : Wrap → ℕ
  | .par _ d => d
  | _ => 0

/-- Interpret a wrapper stack over the pointwise kernel `k`. -/
def applyWrap (k : α → α → ℚ) : Wrap → KernelFun α
  | .base => pointKernel k
  | .serial w bs => serial_fn (applyWrap k w) (isPar w) (dcOf w) bs
  | .par w d => parallel_fn (applyWrap k w) d

/-- The valid tile/device configurations for a wrapper stack on datasets
of the given sizes: positive tile sizes, the divisibility demanded by
`serial_fn`, and for `parallel_fn` either degradation
(`len x1 < device_count`) or exact divisibility, recursively down the
stack (inner wrappers see the tile sizes produced by the outer ones). -/
def validB : Wrap → ℕ → ℕ → Bool
  | .base, _, _ => true
  | .serial w bs, n1, n2 =>
    let t1 := if isPar w then bs * dcOf w else bs
    decide (0 < bs) && decide (0 < t1) && decide (n1 % t1 = 0) && decide (n2 % bs = 0) &&
      validB w t1 bs
  | .par w dc, n1, n2 =>
    decide (0 < dc) &&
      (if n1 < dc then validB w 1 n2
       else decide (n1 % dc = 0) && validB w (n1 / dc) n2)

/-- The first stage of `batch` (`batch.py` lines 263-266): parallel
wrapping is chosen when `device_count == -1` and more than one device is
available, or when `device_count > 0`; otherwise the function is only
jitted (a value-level identity). -/
def parallel_stage (device_count : ℤ) (available : ℕ) : Wrap :=
  if (device_count = -1 ∧ 1 < available) ∨ 0 < device_count then
    Wrap.par Wrap.base (if device_count = -1 then available else device_count.toNat)
  else Wrap.base

/-- The wrapper stack built by `batch` (`batch.py` lines 240-271):
the parallel stage, then serial wrapping unless `batch_size` is zero. -/
def batchWrap (batch_size : ℕ) (device_count : ℤ) (available : ℕ) : Wrap :=
  if batch_size = 0 then parallel_stage device_count available
  else Wrap.serial (parallel_stage device_count available) batch_size

/-- `batch(kernel_fn, batch_size, device_count, store_on_device)` on the
pointwise kernel `k` (`store_on_device` only controls placement, which
is value-preserving, and is omitted from the value model). -/
def batch (k : α → α → ℚ) (batch_size : ℕ) (device_count : ℤ) (available : ℕ) : KernelFun α :=
  applyWrap k (batchWrap batch_size device_count available)


/-- Observer: does a wrapper stack contain a parallel wrapper? -/
def hasParWrap : Wrap → Bool
  | .base => false
  | .serial w _ => hasParWrap w
  | .par _ _ => true

/-- Observer: does a wrapper stack contain a serial wrapper? -/
def hasSerialWrap : Wrap → Bool
  | .base => false
  | .serial _ _ => true
  | .par w _ => hasSerialWrap w

/-- Formalization of the words of claim C6: multiple (at least two)
devices are requested, or multiple devices are available. -/
def multipleDevicesRequestedOrAvailable (device_count : ℤ) (available : ℕ) : Prop :=
  2 ≤ device_count ∨ 2 ≤ available

/-- One leaf of `sum_and_contract` in `empirical_direct_ntk_fn`
(`empirical.py` lines 188-195): each per-example, per-output Jacobian
slice is reshaped to a flat parameter vector and contracted,
`np.dot(x, np.transpose(y, (0, 2, 1)))`; entry `(i, a, j, b)` is the
parameter-space inner product of slice `(i, a)` of `x` with slice
`(j, b)` of `y`. -/
def contract (n1 n2 d p : ℕ) (x : Fin n1 → Fin d → Fin p → ℚ)
    (y : Fin n2 → Fin d → Fin p → ℚ) : Fin n1 → Fin d → Fin n2 → Fin d → ℚ :=
  fun i a j b => Finset.univ.sum fun q : Fin p => x i a q * y j b q

/-- `tree_reduce(operator.add, tree_multimap(contract, j1, j2))`: the
contraction summed over every parameter-tree leaf (`P l` is the flat
parameter count of leaf `l`). -/
def sum_and_contract (L : ℕ) (P : Fin L → ℕ) (n1 n2 d : ℕ)
    (J1 : (l : Fin L) → Fin n1 → Fin d → Fin (P l) → ℚ)
    (J2 : (l : Fin L) → Fin n2 → Fin d → Fin (P l) → ℚ) :
    Fin n1 → Fin d → Fin n2 → Fin d → ℚ :=
  fun i a j b => Finset.univ.sum fun l : Fin L => contract n1 n2 d (P l) (J1 l) (J2 l) i a j b

/-- `empirical_direct_ntk_fn` (`empirical.py` lines 172-220): materialize
the Jacobians, contract over parameters, and apply the final
`np.transpose(ntk, (0, 2, 1, 3))`.  `J1` and `J2` are the per-leaf
Jacobians of `f` at `x1` and `x2` (outputs of rank 2: `n` examples by
`d` output channels). -/
def direct_ntk (L : ℕ) (P : Fin L → ℕ) (n1 n2 d : ℕ)
    (J1 : (l : Fin L) → Fin n1 → Fin d → Fin (P l) → ℚ)
    (J2 : (l : Fin L) → Fin n2 → Fin d → Fin (P l) → ℚ) :
    Fin n1 → Fin n2 → Fin d → Fin d → ℚ :=
  fun i j a b => sum_and_contract L P n1 n2 d J1 J2 i a j b

/-- `delta_vjp` (`empirical.py` lines 159-160): reverse-mode pullback of
the dummy cotangent through `f` at `x2` — parameter leaf `l` receives
the cotangent contracted against `J2`. -/
def delta_vjp (L : ℕ) (P : Fin L → ℕ) (n2 d : ℕ)
    (J2 : (l : Fin L) → Fin n2 → Fin d → Fin (P l) → ℚ)
    (delta : Fin n2 → Fin d → ℚ) : (l : Fin L) → Fin (P l) → ℚ :=
  fun l q => Finset.univ.sum fun j : Fin n2 => Finset.univ.sum fun b : Fin d =>
    delta j b * J2 l j b q

/-- `delta_vjp_jvp` (`empirical.py` lines 158-161): push the pulled-back
parameter tangent forward through `f` at `x1`. -/
def delta_vjp_jvp (L : ℕ) (P : Fin L → ℕ) (n1 n2 d : ℕ)
    (J1 : (l : Fin L) → Fin n1 → Fin d → Fin (P l) → ℚ)
    (J2 : (l : Fin L) → Fin n2 → Fin d → Fin (P l) → ℚ)
    (delta : Fin n2 → Fin d → ℚ) : Fin n1 → Fin d → ℚ :=
  fun i a => Finset.univ.sum fun l : Fin L => Finset.univ.sum fun q : Fin (P l) =>
    J1 l i a q * delta_vjp L P n2 d J2 delta l q

/-- A one-hot dummy cotangent of the output shape on `x2`. -/
def one_hot (n2 d : ℕ) (j : Fin n2) (b : Fin d) : Fin n2 → Fin d → ℚ :=
  fun u v => if u = j then (if v = b then 1 else 0) else 0

/-- `jax.api.jacobian` applied to an operator that is linear in its
argument (as `delta_vjp_jvp` is for fixed parameters): the Jacobian
matrix is evaluation at one-hot inputs, independent of the point
(`fx_dummy`, `np.ones`) at which it is taken. -/
def jacobian_lin (n1 n2 d : ℕ) (g : (Fin n2 → Fin d → ℚ) → Fin n1 → Fin d → ℚ) :
    Fin n1 → Fin d → Fin n2 → Fin d → ℚ :=
  fun i a j b => g (one_hot n2 d j b) i a

/-- `empirical_implicit_ntk_fn` (`empirical.py` lines 139-167): the
Jacobian over the dummy cotangent of the composed vjp-at-`x2` then
jvp-at-`x1` operator, transposed by
`ordering = (0, ndim) + tuple(range(1, ndim)) + …` which for outputs of
rank 2 is `(0, 2, 1, 3)`. -/
def implicit_ntk (L : ℕ) (P : Fin L → ℕ) (n1 n2 d : ℕ)
    (J1 : (l : Fin L) → Fin n1 → Fin d → Fin (P l) → ℚ)
    (J2 : (l : Fin L) → Fin n2 → Fin d → Fin (P l) → ℚ) :
    Fin n1 → Fin n2 → Fin d → Fin d → ℚ :=
  fun i j a b => jacobian_lin n1 n2 d (delta_vjp_jvp L P n1 n2 d J1 J2) i a j b

/-- The evolving `_key` of `get_samples` (`monte_carlo.py` lines 45-47):
`_key, split = random.split(_key)` threads the first output of each
split into the next iteration. -/
def chain_key {K : Type} (split : K → K × K) (key : K) : ℕ → K
  | 0 => key
  | n + 1 => (split (chain_key split key n)).1

/-- The key handed to draw `i` (0-indexed, loop iteration `n = i + 1`):
the second output of the `i`-th split. -/
def draw_key {K : Type} (split : K → K × K) (key : K) (i : ℕ) : K :=
  (split (chain_key split key i)).2

/-- The running sum `ker_sampled` after `i + 1` draws (`monte_carlo.py`
lines 48-52): the first draw, then elementwise
`tree_multimap(operator.add, ker_sampled, one_sample)`.  A single-draw
kernel is a tree of numbers, modelled as a function from leaf positions
`I` to values. -/
def ker_sampled {K I : Type} (split : K → K × K) (key : K)
    (sample_once : K → I → ℚ) : ℕ → I → ℚ
  | 0 => sample_once (draw_key split key 0)
  | i + 1 => ker_sampled split key sample_once i + sample_once (draw_key split key (i + 1))

/-- `normalize(sample, n)` (`monte_carlo.py` lines 38-39): elementwise
division by the draw count. -/
def normalize {I : Type} (sample : I → ℚ) (n : ℕ) : I → ℚ := fun x => sample x / n

/-- The generator `get_samples` (`monte_carlo.py` lines 41-53),
materialized: the pairs `(n, running sum through n draws)` for
`n = 1 … maxn`. -/
def get_samples {K I : Type} (split : K → K × K) (key : K) (sample_once : K → I → ℚ)
    (maxn : ℕ) : List (ℕ × (I → ℚ)) :=
  (List.range maxn).map fun i => (i + 1, ker_sampled split key sample_once i)

/-- The generator branch of `get_sampled_kernel` (`monte_carlo.py` lines
55-60): run `get_samples` through `max(n_samples)` draws and yield
`normalize(sample, n)` at every requested checkpoint. -/
def get_sampled_kernel_gen {K I : Type} (split : K → K × K) (key : K)
    (sample_once : K → I → ℚ) (n_samples : Finset ℕ) : List (I → ℚ) :=
  (get_samples split key sample_once (n_samples.sup id)).filterMap
    fun p => if p.1 ∈ n_samples then some (normalize p.2 p.1) else none

/-- An element of a Python collection passed as `n_samples`: an `int`,
or a value of some other type. -/
inductive NSampleItem where
  | int (n : ℤ)
  | nonInt (tyName : String)
deriving DecidableEq

/-- The Python value passed as `n_samples`: an `int`, an iterable of
items, or a non-iterable of some other type. -/
inductive NSamplesArg where
  | int (n : ℤ)
  | coll (items : List NSampleItem)
  | nonIterable (tyName : String)

/-- `all(isinstance(n, int) for n in n_samples)`, together with the
extraction of the integers. -/
def allInts : List NSampleItem → Option (List ℤ)
  | [] => some []
  | .int n :: rest => (allInts rest).map fun l => n :: l
  | .nonInt _ :: _ => Option.none

/-- The body shared by both branches of `_canonicalize_n_samples` after
the `isinstance(int)` test (`monte_carlo.py` lines 166-175):
`set(n_samples)`, the only-integers check, then the positivity check. -/
def canon_n_samples_aux (items : List NSampleItem) (get_generator : Bool) :
    Except String (List ℤ × Bool) :=
  match allInts items.dedup with
  | Option.none => .error "n_samples must contain only integers."
  | some ints =>
    if ints.any fun n => n ≤ 0 then .error "n_samples must be positive."
    else .ok (ints, get_generator)

/-- `_canonicalize_n_samples` (`monte_carlo.py` lines 160-179): an `int`
is wrapped in a one-element tuple with `get_generator = False` and then
follows the iterable path; an iterable goes through the
set/int/positivity checks; anything else is rejected. -/
def canonicalize_n_samples : NSamplesArg → Except String (List ℤ × Bool)
  | .int n => canon_n_samples_aux [NSampleItem.int n] false
  | .coll items => canon_n_samples_aux items true
  | .nonIterable ty =>
    .error ("n_samples must be either an integer of a set of integers, got " ++ ty ++ ".")

/-- The Python value of the `get` argument seen by the adapter: the
default `None`, a single string, or a collection of strings. -/
inductive GetArg where
  | none : GetArg
  | str : String → GetArg
  | coll : List String → GetArg

/-- The message of `canonicalize_get` for falsy `get` (`utils.py`
line 44). -/
def emptyGetMsg : String := "\"get\" must be non-empty."

/-- `s.lower()`: Python lowercasing, modelled per character. -/
def pyLower (s : String) : String := ⟨s.data.map Char.toLower⟩

/-- The lowercase and duplicate-rejection steps of `canonicalize_get`
(`utils.py` lines 46-54; the `Got …` tail of the duplicate message is
omitted). -/
def canonicalize_get_aux (get_is_not_tuple : Bool) (get : List String) :
    Except String (Bool × List String) :=
  let g := get.map fun s => pyLower s
  if g.Nodup then .ok (get_is_not_tuple, g)
  else .error "All entries in get must be unique."

/-- `canonicalize_get` (`utils.py` lines 42-54): reject falsy `get`
(`None`, the empty string, the empty tuple), wrap a single string into a
one-element tuple, lowercase, reject duplicates. -/
def canonicalize_get : GetArg → Except String (Bool × List String)
  | .none => .error emptyGetMsg
  | .str s => if s = "" then .error emptyGetMsg else canonicalize_get_aux true [s]
  | .coll l => if l = [] then .error emptyGetMsg else canonicalize_get_aux false l

/-- The process-wide `_KERNEL_NAMED_TUPLE_CACHE` (`utils.py` line 57).
Dynamically created namedtuple types are identified by numeric ids:
`entries` maps a `(name, field names)` key to the id of the record type
created for it, and `next` is the next fresh id. -/
structure TupleCache where
  entries : List ((String × List String) × ℕ)
  next : ℕ
deriving DecidableEq

/-- Association-list lookup in the cache. -/
def cacheFind (key : String × List String) :
    List ((String × List String) × ℕ) → Option ℕ
  | [] => Option.none
  | (key2, v) :: rest => if key2 = key then some v else cacheFind key rest

/-- `named_tuple_factory` (`utils.py` lines 57-64): return the cached
record type for `(name, get)`, creating and caching a fresh one on a
miss. -/
def named_tuple_factory (name : String) (get : List String) (cache : TupleCache) :
    TupleCache × ℕ :=
  match cacheFind (name, get) cache.entries with
  | some tyId => (cache, tyId)
  | Option.none => (⟨((name, get), cache.next) :: cache.entries, cache.next + 1⟩, cache.next)

/-- What a function wrapped by `get_namedtuple` returns to the adapter:
the internal mapping of name to array (the dict comprehension over the
canonicalized `get`, as in `empirical_kernel_fn` line 305), or a lazy
sequence of such mappings (a generator). -/
inductive FnOut (V : Type) where
  | dict : (String → V) → FnOut V
  | gen : List (String → V) → FnOut V

/-- What a call through the adapter returns: an error, a bare array, a
lazy sequence of bare arrays, a record (type id and field values in
requested order), or a lazy sequence of records. -/
inductive AdapterOut (V : Type) where
  | err : String → AdapterOut V
  | single : V → AdapterOut V
  | singleGen : List V → AdapterOut V
  | record : ℕ → List V → AdapterOut V
  | recordGen : ℕ → List (List V) → AdapterOut V
deriving DecidableEq

/-- `getter_fn`, the wrapper installed by `get_namedtuple(name)`
(`utils.py` lines 67-109): canonicalize `get` (the argument, or the
declared default when none is supplied), call the wrapped function with
the canonicalized tuple, then either index out the single requested
name (`fn_out[get[0]]`) or package the values in the cached record type
in the exact requested order; generator outputs are mapped lazily. -/
def getter_fn {V : Type} (name : String) (fn : List String → FnOut V) (get : GetArg)
    (cache : TupleCache) : TupleCache × AdapterOut V :=
  match canonicalize_get get with
  | .error e => (cache, .err e)
  | .ok (get_is_not_tuple, g) =>
    match fn g with
    | .dict dct =>
      if get_is_not_tuple then (cache, .single (dct (g.headD "")))
      else
        let res := named_tuple_factory name g cache
        (res.1, .record res.2 (g.map dct))
    | .gen ds =>
      if get_is_not_tuple then (cache, .singleGen (ds.map fun out => out (g.headD "")))
      else
        let res := named_tuple_factory name g cache
        (res.1, .recordGen res.2 (ds.map fun out => g.map out))

/-- A call to the kernel function returned by `monte_carlo_kernel_fn`
without a `get` argument: `get_sampled_kernel` declares `get=None`
(`monte_carlo.py` lines 57 and 63), and the adapter then canonicalizes
the default `None` (`utils.py` lines 90-92). -/
def monte_carlo_call_default_get {V : Type} (fn : List String → FnOut V)
    (cache : TupleCache) : TupleCache × AdapterOut V :=
  getter_fn "MonteCarloKernel" fn GetArg.none cache

/-- A kernel-like Python value as dispatched on by `_flatten_kernel` and
`_move_kernel_to_cpu` (`batch.py` lines 62-97): a plain array, a
`Kernel` namedtuple (field names paired with abstract array payloads of
type `A`), or a value of any other Python type, identified by the name
of its type. -/
inductive KernelVal (A : Type) where
  | ndarray : A → KernelVal A
  | namedtup : List (String × A) → KernelVal A
  | other : String → KernelVal A

/-- Errors raised by the kernel post-processing helpers. -/
inductive PyError where
  | typeError (msg : String)
  | nameError (missingName : String)
deriving DecidableEq

/-- `_flatten_kernel` (`batch.py` lines 62-83), with the per-field array
transforms passed in as collaborators (`flattenField key value` is the
`_flatten_batch_dimensions` call with the per-field `discard_axis`, or
the scalar extraction, applied to field `key`; `flattenArr` is the bare
call for a plain array).  A value that is neither a namedtuple nor an
`np.ndarray` raises `TypeError` with a message naming the received
type. -/
def flatten_kernel {A : Type} (flattenField : String → A → A) (flattenArr : A → A) :
    KernelVal A → Except PyError (KernelVal A)
  | .ndarray a => .ok (.ndarray (flattenArr a))
  | .namedtup fields => .ok (.namedtup (fields.map fun p => (p.1, flattenField p.1 p.2)))
  | .other ty =>
    .error (.typeError
      ("Expected kernel to be either a namedtuple or a np.ndarray, got " ++ ty ++ "."))

/-- `_move_kernel_to_cpu` (`batch.py` lines 86-97).  The unrecognized
branch is modelled faithfully to the source: the message is built as
`'… got %s.' % type(k)`, but the parameter of this function is named
`kernel` and no `k` is in scope there, so evaluating the message raises
`NameError` for the name `k` instead of the intended `TypeError`. -/
def move_kernel_to_cpu {A : Type} (device_get : A → A) :
    KernelVal A → Except PyError (KernelVal A)
  | .ndarray a => .ok (.ndarray (device_get a))
  | .namedtup fields => .ok (.namedtup (fields.map fun p => (p.1, device_get p.2)))
  | .other _ => .error (.nameError "k")

/-! ### DEFS-END -/

theorem chunk_nil (t : ℕ) : chunk t ([] : List α) = [] := by
  simp [chunk]

theorem chunk_eq (t : ℕ) (ht : t ≠ 0) (xs : List α) (hne : xs ≠ []) :
    chunk t xs = xs.take t :: chunk t (xs.drop t) := by
  match xs with
  | [] => exact absurd rfl hne
  | x :: l =>
    rw [chunk]
    simp [ht]

theorem chunk_getElem? (t : ℕ) (ht : t ≠ 0) (r : ℕ) (hr : r < t) :
    ∀ (i : ℕ) (xs : List α), ((chunk t xs)[i]?.bind fun ch => ch[r]?) = xs[i * t + r]? := by
  intro i
  induction i with
  | zero =>
    intro xs
    match xs with
    | [] => simp [chunk_nil]
    | x :: l =>
      rw [chunk_eq t ht _ (by simp)]
      simp [List.getElem?_take, hr]
  | succ i ih =>
    intro xs
    match xs with
    | [] => simp [chunk_nil]
    | x :: l =>
      rw [chunk_eq t ht _ (by simp)]
      have hidx : t + (i * t + r) = (i + 1) * t + r := by ring
      simp only [List.getElem?_cons_succ]
      rw [ih ((x :: l).drop t), List.getElem?_drop, hidx]

theorem chunk_length (t : ℕ) (ht : t ≠ 0) :
    ∀ (n : ℕ) (xs : List α), xs.length = n → t ∣ n → (chunk t xs).length = n / t := by
  intro n
  induction n using Nat.strong_induction_on with
  | _ n ih =>
    intro xs hlen hdvd
    match xs with
    | [] =>
      rw [chunk_nil]
      simp only [List.length_nil] at hlen
      simp [← hlen]
    | x :: l =>
      rw [chunk_eq t ht _ (by simp)]
      have hn : 0 < n := by
        rw [← hlen]
        simp
      have htn : t ≤ n := Nat.le_of_dvd hn hdvd
      have hrec := ih (n - t) (by omega) ((x :: l).drop t)
        (by simp [hlen]) (Nat.dvd_sub' hdvd dvd_rfl)
      simp only [List.length_cons, hrec]
      rw [Nat.div_eq_sub_div (Nat.pos_of_ne_zero ht) htn]

theorem length_of_mem_chunk (t : ℕ) (ht : t ≠ 0) :
    ∀ (n : ℕ) (xs : List α), xs.length = n → t ∣ n → ∀ ch ∈ chunk t xs, ch.length = t := by
  intro n
  induction n using Nat.strong_induction_on with
  | _ n ih =>
    intro xs hlen hdvd ch hc
    match xs with
    | [] => simp [chunk_nil] at hc
    | x :: l =>
      rw [chunk_eq t ht _ (by simp)] at hc
      have hn : 0 < n := by
        rw [← hlen]
        simp
      have htn : t ≤ n := Nat.le_of_dvd hn hdvd
      rcases List.mem_cons.mp hc with h | h
      · subst h
        simp only [List.length_take, hlen]
        omega
      · exact ih (n - t) (by omega) ((x :: l).drop t)
          (by simp [hlen]) (Nat.dvd_sub' hdvd dvd_rfl) ch h

theorem chunk_elem_of_lt (t : ℕ) (ht : t ≠ 0) (xs : List α) (hd : t ∣ xs.length) (i : ℕ)
    (hi : i < xs.length) :
    ∃ ch, (chunk t xs)[i / t]? = some ch ∧ ch.length = t ∧ ch[i % t]? = xs[i]? := by
  have hlen : (chunk t xs).length = xs.length / t := chunk_length t ht xs.length xs rfl hd
  have hlt : i / t < (chunk t xs).length := by
    rw [hlen]
    exact Nat.div_lt_div_of_lt_of_dvd hd hi
  refine ⟨(chunk t xs)[i / t], List.getElem?_eq_getElem hlt, ?_, ?_⟩
  · exact length_of_mem_chunk t ht xs.length xs rfl hd _ (List.getElem_mem hlt)
  · have hb := chunk_getElem? t ht (i % t) (Nat.mod_lt _ (Nat.pos_of_ne_zero ht)) (i / t) xs
    have hidx : i / t * t + i % t = i := by
      rw [Nat.mul_comm]
      exact Nat.div_add_mod i t
    rw [hidx, List.getElem?_eq_getElem hlt] at hb
    simpa using hb

theorem mapE_ok (f : α → Except ε β) (d : β) :
    ∀ l : List α, (∀ a ∈ l, ∃ b, f a = .ok b) →
      mapE f l = .ok (l.map fun a => okElse (f a) d) := by
  intro l
  induction l with
  | nil => intro _; rfl
  | cons a l ih =>
    intro h
    obtain ⟨b, hb⟩ := h a (by simp)
    have hrest := ih fun x hx => h x (by simp [hx])
    simp [mapE, hb, hrest, okElse]

theorem mem_of_getElem?_some {l : List α} {i : ℕ} {a : α} (h : l[i]? = some a) : a ∈ l := by
  obtain ⟨hl, rfl⟩ := List.getElem?_eq_some_iff.mp h
  exact List.getElem_mem hl

theorem parallel_rows_ok (kf : KernelFun α) (k : α → α → ℚ) (x1 x2 : List α) (npd : ℕ)
    (hnpd : npd ≠ 0) (hd : npd ∣ x1.length)
    (hok : ∀ s ∈ chunk npd x1, ∃ m, kf s x2 = .ok m ∧
      ∀ r j, r < s.length → j < x2.length → m r j = kAt k s x2 r j) :
    mapE (fun s => kf s x2) (chunk npd x1)
        = .ok ((chunk npd x1).map fun s => okElse (kf s x2) zeroMat)
    ∧ ∀ i j, i < x1.length → j < x2.length →
        nthD ((chunk npd x1).map fun s => okElse (kf s x2) zeroMat) (i / npd) zeroMat
          (i % npd) j = kAt k x1 x2 i j := by
  constructor
  · exact mapE_ok _ zeroMat _ fun s hs => (hok s hs).elim fun m hm => ⟨m, hm.1⟩
  · intro i j hi hj
    obtain ⟨sh, hsome, hslen, hsget⟩ := chunk_elem_of_lt npd hnpd x1 hd i hi
    have hmem : sh ∈ chunk npd x1 := mem_of_getElem?_some hsome
    obtain ⟨m, hm, hel⟩ := hok sh hmem
    have hval : nthD ((chunk npd x1).map fun s => okElse (kf s x2) zeroMat) (i / npd) zeroMat
        = okElse (kf sh x2) zeroMat := by
      simp [nthD, List.getElem?_map, hsome]
    rw [hval, hm]
    simp only [okElse]
    rw [hel (i % npd) j (by rw [hslen]; exact Nat.mod_lt _ (Nat.pos_of_ne_zero hnpd)) hj]
    unfold kAt
    rw [hsget]

theorem serial_ok (kf : KernelFun α) (k : α → α → ℚ) (isp : Bool) (dcv bs : ℕ)
    (x1 x2 : List α)
    (hbs : bs ≠ 0) (ht1 : (if isp then bs * dcv else bs) ≠ 0)
    (h1 : x1.length % (if isp then bs * dcv else bs) = 0)
    (h2 : x2.length % bs = 0)
    (hok : ∀ c1 ∈ chunk (if isp then bs * dcv else bs) x1, ∀ c2 ∈ chunk bs x2,
      ∃ m, kf c1 c2 = .ok m ∧
        ∀ r s, r < c1.length → s < c2.length → m r s = kAt k c1 c2 r s) :
    ∃ m, serial_fn kf isp dcv bs x1 x2 = .ok m ∧
      ∀ i j, i < x1.length → j < x2.length → m i j = kAt k x1 x2 i j := by
  have hd1 : (if isp then bs * dcv else bs) ∣ x1.length := Nat.dvd_of_mod_eq_zero h1
  have hd2 : bs ∣ x2.length := Nat.dvd_of_mod_eq_zero h2
  have hinner : ∀ c1 ∈ chunk (if isp then bs * dcv else bs) x1,
      mapE (fun c2 => kf c1 c2) (chunk bs x2)
        = .ok ((chunk bs x2).map fun c2 => okElse (kf c1 c2) zeroMat) :=
    fun c1 hc1 => mapE_ok _ zeroMat _ fun c2 hc2 =>
      (hok c1 hc1 c2 hc2).elim fun m hm => ⟨m, hm.1⟩
  have houter : mapE (fun c1 => mapE (fun c2 => kf c1 c2) (chunk bs x2))
        (chunk (if isp then bs * dcv else bs) x1)
      = .ok ((chunk (if isp then bs * dcv else bs) x1).map
          fun c1 => okElse (mapE (fun c2 => kf c1 c2) (chunk bs x2)) []) :=
    mapE_ok _ [] _ fun c1 hc1 => ⟨_, hinner c1 hc1⟩
  refine ⟨fun p q =>
      nthD (nthD ((chunk (if isp then bs * dcv else bs) x1).map
          fun d1 => okElse (mapE (fun d2 => kf d1 d2) (chunk bs x2)) [])
        (p / (if isp then bs * dcv else bs)) []) (q / bs) zeroMat
        (p % (if isp then bs * dcv else bs)) (q % bs), ?_, ?_⟩
  · show serial_fn kf isp dcv bs x1 x2 = _
    simp only [serial_fn]
    rw [if_neg (by simp [h1]), if_neg (by simp [h2]), houter]
  · intro i j hi hj
    dsimp only
    obtain ⟨c1, h1some, h1len, h1get⟩ :=
      chunk_elem_of_lt (if isp then bs * dcv else bs) ht1 x1 hd1 i hi
    obtain ⟨c2, h2some, h2len, h2get⟩ := chunk_elem_of_lt bs hbs x2 hd2 j hj
    have h1mem : c1 ∈ chunk (if isp then bs * dcv else bs) x1 := mem_of_getElem?_some h1some
    have h2mem : c2 ∈ chunk bs x2 := mem_of_getElem?_some h2some
    obtain ⟨m, hm, hel⟩ := hok c1 h1mem c2 h2mem
    have hrow : nthD ((chunk (if isp then bs * dcv else bs) x1).map
          fun d1 => okElse (mapE (fun d2 => kf d1 d2) (chunk bs x2)) [])
          (i / (if isp then bs * dcv else bs)) []
        = (chunk bs x2).map fun d2 => okElse (kf c1 d2) zeroMat := by
      simp only [nthD, List.getElem?_map, h1some, Option.map_some', Option.getD_some]
      rw [hinner c1 h1mem]
      rfl
    have hcell : nthD ((chunk bs x2).map fun d2 => okElse (kf c1 d2) zeroMat) (j / bs) zeroMat
        = okElse (kf c1 c2) zeroMat := by
      simp [nthD, List.getElem?_map, h2some]
    rw [hrow, hcell, hm]
    simp only [okElse]
    rw [hel (i % (if isp then bs * dcv else bs)) (j % bs)
      (by rw [h1len]; exact Nat.mod_lt _ (Nat.pos_of_ne_zero ht1))
      (by rw [h2len]; exact Nat.mod_lt _ (Nat.pos_of_ne_zero hbs))]
    unfold kAt
    rw [h1get, h2get]

theorem applyWrap_ok (k : α → α → ℚ) :
    ∀ (w : Wrap) (x1 x2 : List α), validB w x1.length x2.length = true →
      ∃ m, applyWrap k w x1 x2 = .ok m ∧
        ∀ i j, i < x1.length → j < x2.length → m i j = kAt k x1 x2 i j := by
  intro w
  induction w with
  | base =>
    intro x1 x2 _
    exact ⟨kAt k x1 x2, rfl, fun _ _ _ _ => rfl⟩
  | serial w bs ih =>
    intro x1 x2 h
    simp only [validB, Bool.and_eq_true, decide_eq_true_eq] at h
    obtain ⟨⟨⟨⟨hbs, ht1⟩, h1⟩, h2⟩, hw⟩ := h
    refine serial_ok (applyWrap k w) k (isPar w) (dcOf w) bs x1 x2
      (Nat.pos_iff_ne_zero.mp hbs) (Nat.pos_iff_ne_zero.mp ht1) h1 h2 ?_
    intro c1 hc1 c2 hc2
    have hl1 : c1.length = (if isPar w then bs * dcOf w else bs) :=
      length_of_mem_chunk _ (Nat.pos_iff_ne_zero.mp ht1) x1.length x1 rfl
        (Nat.dvd_of_mod_eq_zero h1) c1 hc1
    have hl2 : c2.length = bs :=
      length_of_mem_chunk bs (Nat.pos_iff_ne_zero.mp hbs) x2.length x2 rfl
        (Nat.dvd_of_mod_eq_zero h2) c2 hc2
    exact ih c1 c2 (by rw [hl1, hl2]; exact hw)
  | par w dcv ih =>
    intro x1 x2 h
    simp only [validB, Bool.and_eq_true, decide_eq_true_eq] at h
    obtain ⟨hdc, hbr⟩ := h
    by_cases hlt : x1.length < dcv
    · rw [if_pos hlt] at hbr
      have hdiv0 : x1.length / dcv = 0 := Nat.div_eq_of_lt hlt
      have hplan : (parallel_plan x1.length dcv).2 = 1 := by
        simp [parallel_plan, hdiv0]
      have hok : ∀ s ∈ chunk 1 x1, ∃ m, applyWrap k w s x2 = .ok m ∧
          ∀ r j, r < s.length → j < x2.length → m r j = kAt k s x2 r j := by
        intro s hs
        have hl : s.length = 1 := length_of_mem_chunk 1 one_ne_zero x1.length x1 rfl
          (one_dvd _) s hs
        exact ih s x2 (by rw [hl]; exact hbr)
      obtain ⟨hmap, hel⟩ := parallel_rows_ok (applyWrap k w) k x1 x2 1 one_ne_zero
        (one_dvd _) hok
      refine ⟨fun p q =>
          nthD ((chunk 1 x1).map fun s => okElse (applyWrap k w s x2) zeroMat)
            (p / 1) zeroMat (p % 1) q, ?_, ?_⟩
      · show parallel_fn (applyWrap k w) dcv x1 x2 = _
        simp only [parallel_fn]
        rw [if_neg (by simp [hdiv0]), hplan, hmap]
      · intro i j hi hj
        dsimp only
        exact hel i j hi hj
    · rw [if_neg hlt] at hbr
      simp only [Bool.and_eq_true, decide_eq_true_eq] at hbr
      obtain ⟨hmod, hw⟩ := hbr
      have hge : dcv ≤ x1.length := Nat.le_of_not_lt hlt
      have hdvd : dcv ∣ x1.length := Nat.dvd_of_mod_eq_zero hmod
      have hnpd : x1.length / dcv ≠ 0 := by
        have := (Nat.one_le_div_iff hdc).mpr hge
        omega
      have hplan : (parallel_plan x1.length dcv).2 = x1.length / dcv := by
        simp [parallel_plan, hnpd]
      have hd : (x1.length / dcv) ∣ x1.length := ⟨dcv, (Nat.div_mul_cancel hdvd).symm⟩
      have hok : ∀ s ∈ chunk (x1.length / dcv) x1, ∃ m, applyWrap k w s x2 = .ok m ∧
          ∀ r j, r < s.length → j < x2.length → m r j = kAt k s x2 r j := by
        intro s hs
        have hl : s.length = x1.length / dcv :=
          length_of_mem_chunk _ hnpd x1.length x1 rfl hd s hs
        exact ih s x2 (by rw [hl]; exact hw)
      obtain ⟨hmap, hel⟩ := parallel_rows_ok (applyWrap k w) k x1 x2 (x1.length / dcv)
        hnpd hd hok
      refine ⟨fun p q =>
          nthD ((chunk (x1.length / dcv) x1).map fun s => okElse (applyWrap k w s x2) zeroMat)
            (p / (x1.length / dcv)) zeroMat (p % (x1.length / dcv)) q, ?_, ?_⟩
      · show parallel_fn (applyWrap k w) dcv x1 x2 = _
        simp only [parallel_fn]
        rw [if_neg (by simp [hmod]), hplan, hmap]
      · intro i j hi hj
        dsimp only
        exact hel i j hi hj


/-- Claim C1: for every (pointwise) kernel function, every pair of input
batches and every valid batching configuration — batch sizes dividing
the (effective) dataset sizes, device counts dividing or exceeding
`len x1` — the function returned by `batch(kernel_fn, batch_size,
device_count, store_on_device)`, and more generally every composable
ordering of serial and parallel wrapping, applied to `(x1, x2)` is
elementwise equal to `kernel_fn(x1, x2)` (exactly, over `ℚ`, which is
agreement up to floating-point summation reordering). -/
theorem claim_C1_batched_equals_unbatched (k : α → α → ℚ) (w : Wrap) (x1 x2 : List α)
    (h : validB w x1.length x2.length = true) :
    (∃ m, applyWrap k w x1 x2 = .ok m ∧
      ∀ i j, i < x1.length → j < x2.length → m i j = kAt k x1 x2 i j) ∧
    ∀ (bs : ℕ) (dc : ℤ) (avail : ℕ),
      validB (batchWrap bs dc avail) x1.length x2.length = true →
      ∃ m, batch k bs dc avail x1 x2 = .ok m ∧
        ∀ i j, i < x1.length → j < x2.length → m i j = kAt k x1 x2 i j :=
  ⟨applyWrap_ok k w x1 x2 h, fun _ _ _ hb => applyWrap_ok k _ x1 x2 hb⟩

/-- Witness for C1: serial batching of tile size 1 wrapped around
2-device parallel batching on a dataset of 4 rows and 2 columns. -/
theorem claim_C1_witness :
    validB (Wrap.serial (Wrap.par Wrap.base 2) 1) ([1, 2, 3, 4] : List ℕ).length
        ([5, 6] : List ℕ).length = true ∧
    ((∃ m, applyWrap (fun a b : ℕ => (a : ℚ) * 10 + b)
        (Wrap.serial (Wrap.par Wrap.base 2) 1) [1, 2, 3, 4] [5, 6] = .ok m ∧
      ∀ i j, i < ([1, 2, 3, 4] : List ℕ).length → j < ([5, 6] : List ℕ).length →
        m i j = kAt (fun a b : ℕ => (a : ℚ) * 10 + b) [1, 2, 3, 4] [5, 6] i j) ∧
    ∀ (bs : ℕ) (dc : ℤ) (avail : ℕ),
      validB (batchWrap bs dc avail) ([1, 2, 3, 4] : List ℕ).length
          ([5, 6] : List ℕ).length = true →
      ∃ m, batch (fun a b : ℕ => (a : ℚ) * 10 + b) bs dc avail [1, 2, 3, 4] [5, 6] = .ok m ∧
        ∀ i j, i < ([1, 2, 3, 4] : List ℕ).length → j < ([5, 6] : List ℕ).length →
          m i j = kAt (fun a b : ℕ => (a : ℚ) * 10 + b) [1, 2, 3, 4] [5, 6] i j) :=
  ⟨by decide,
   claim_C1_batched_equals_unbatched (fun a b : ℕ => (a : ℚ) * 10 + b)
     (Wrap.serial (Wrap.par Wrap.base 2) 1) [1, 2, 3, 4] [5, 6] (by decide)⟩

/-- Claim C4: a serial-batched kernel function fails with a
size-mismatch error carrying the offending dataset size and the divisor
whenever `len x1` is not divisible by the effective row tile size
(`batch_size`, times `device_count` under the parallel marker) or
`len x2` is not divisible by `batch_size`, and performs no kernel
computation: the outcome is identical for every wrapped kernel
function. -/
theorem claim_C4_serial_divisibility_error (kf kf2 : KernelFun α) (isp : Bool)
    (dcv bs : ℕ) (x1 x2 : List α) (hbs : 0 < bs) (hdc : isp = true → 0 < dcv) :
    (x1.length % (if isp then bs * dcv else bs) ≠ 0 →
      serial_fn kf isp dcv bs x1 x2 =
        .error (.sizeMismatchX1 x1.length (if isp then bs * dcv else bs)
          (if isp then some dcv else Option.none)) ∧
      serial_fn kf isp dcv bs x1 x2 = serial_fn kf2 isp dcv bs x1 x2) ∧
    (x1.length % (if isp then bs * dcv else bs) = 0 → x2.length % bs ≠ 0 →
      serial_fn kf isp dcv bs x1 x2 = .error (.sizeMismatchX2 x2.length bs) ∧
      serial_fn kf isp dcv bs x1 x2 = serial_fn kf2 isp dcv bs x1 x2) := by
  have e1 : ∀ g : KernelFun α, x1.length % (if isp then bs * dcv else bs) ≠ 0 →
      serial_fn g isp dcv bs x1 x2 =
        .error (.sizeMismatchX1 x1.length (if isp then bs * dcv else bs)
          (if isp then some dcv else Option.none)) := by
    intro g hr
    simp only [serial_fn]
    rw [if_pos hr]
  have e2 : ∀ g : KernelFun α, x1.length % (if isp then bs * dcv else bs) = 0 →
      x2.length % bs ≠ 0 →
      serial_fn g isp dcv bs x1 x2 = .error (.sizeMismatchX2 x2.length bs) := by
    intro g h1 hr
    simp only [serial_fn]
    rw [if_neg (by simp [h1]), if_pos hr]
  exact ⟨fun hr => ⟨e1 kf hr, (e1 kf hr).trans (e1 kf2 hr).symm⟩,
    fun h1 hr => ⟨e2 kf h1 hr, (e2 kf h1 hr).trans (e2 kf2 h1 hr).symm⟩⟩

/-- Witness for C4: the example from the spec, a dataset of 10 with
batch size 3. -/
theorem claim_C4_witness :
    ([0, 1, 2, 3, 4, 5, 6, 7, 8, 9] : List ℕ).length % 3 ≠ 0 ∧
    (serial_fn (pointKernel fun a b : ℕ => (a : ℚ) * b) false 0 3
        [0, 1, 2, 3, 4, 5, 6, 7, 8, 9] [5, 6, 7] =
      .error (.sizeMismatchX1 10 3 Option.none) ∧
     serial_fn (pointKernel fun a b : ℕ => (a : ℚ) * b) false 0 3
        [0, 1, 2, 3, 4, 5, 6, 7, 8, 9] [5, 6, 7] =
      serial_fn (fun _ _ => .ok zeroMat) false 0 3
        [0, 1, 2, 3, 4, 5, 6, 7, 8, 9] [5, 6, 7]) :=
  ⟨by decide,
   (claim_C4_serial_divisibility_error (pointKernel fun a b : ℕ => (a : ℚ) * b)
     (fun _ _ => .ok zeroMat) false 0 3 [0, 1, 2, 3, 4, 5, 6, 7, 8, 9] [5, 6, 7]
     (by decide) (by decide)).1 (by decide)⟩

/-- Claim C5: a parallel-batched kernel function degrades when
`device_count` exceeds `len x1` — the shard plan becomes `len x1`
active devices with one example each and the result still equals the
unbatched reference — and when `len x1 ≥ device_count` does not divide
evenly it fails with a divisibility error carrying both the dataset
size and the device count, performing no kernel computation. -/
theorem claim_C5_parallel_degrade_or_error (k : α → α → ℚ) (dcv : ℕ) (x1 x2 : List α)
    (hdc : 0 < dcv) :
    (x1.length < dcv →
      parallel_plan x1.length dcv = (x1.length, 1) ∧
      ∃ m, parallel_fn (pointKernel k) dcv x1 x2 = .ok m ∧
        ∀ i j, i < x1.length → j < x2.length → m i j = kAt k x1 x2 i j) ∧
    (dcv ≤ x1.length → x1.length % dcv ≠ 0 →
      ∀ kf : KernelFun α, parallel_fn kf dcv x1 x2 =
        .error (.sizeMismatchParallel x1.length dcv)) := by
  constructor
  · intro hlt
    constructor
    · have hdiv0 : x1.length / dcv = 0 := Nat.div_eq_of_lt hlt
      simp [parallel_plan, hdiv0, Nat.mod_eq_of_lt hlt]
    · have hv : validB (Wrap.par Wrap.base dcv) x1.length x2.length = true := by
        simp [validB, hlt, hdc]
      exact applyWrap_ok k (Wrap.par Wrap.base dcv) x1 x2 hv
  · intro hge hr kf
    have hdiv : x1.length / dcv ≠ 0 := by
      have := (Nat.one_le_div_iff hdc).mpr hge
      omega
    simp only [parallel_fn]
    rw [if_pos ⟨hdiv, hr⟩]

/-- Witness for C5: the example from the spec, 8 requested devices on a
dataset of 3 examples. -/
theorem claim_C5_witness :
    0 < 8 ∧ ([1, 2, 3] : List ℕ).length < 8 ∧
    (parallel_plan ([1, 2, 3] : List ℕ).length 8 = (([1, 2, 3] : List ℕ).length, 1) ∧
     ∃ m, parallel_fn (pointKernel fun a b : ℕ => (a : ℚ) * 10 + b) 8 [1, 2, 3] [5, 6] =
        .ok m ∧
      ∀ i j, i < ([1, 2, 3] : List ℕ).length → j < ([5, 6] : List ℕ).length →
        m i j = kAt (fun a b : ℕ => (a : ℚ) * 10 + b) [1, 2, 3] [5, 6] i j) :=
  ⟨by decide, by decide,
   (claim_C5_parallel_degrade_or_error (fun a b : ℕ => (a : ℚ) * 10 + b) 8 [1, 2, 3]
     [5, 6] (by decide)).1 (by decide)⟩

/-- Counterexample to claim C6 as stated: with `device_count = 1` and a
single available device, `batch` chooses parallel wrapping even though
multiple devices are neither requested nor available. -/
theorem claim_C6_counterexample :
    hasParWrap (batchWrap 0 1 1) = true ∧ ¬ multipleDevicesRequestedOrAvailable 1 1 := by
  constructor
  · decide
  · simp only [multipleDevicesRequestedOrAvailable]
    decide

/-- Claim C6 amended: `batch` chooses parallel wrapping exactly when a
positive device count is requested, or when `device_count = -1` and more
than one device is available (so also for a requested count of one);
it applies serial wrapping exactly when `batch_size` is nonzero; and
with `batch_size = 0` it returns the (possibly parallel-wrapped) first
stage unchanged. -/
theorem claim_C6_amended_dispatch (bs : ℕ) (dc : ℤ) (avail : ℕ) :
    (hasParWrap (batchWrap bs dc avail) = true ↔ (0 < dc ∨ (dc = -1 ∧ 1 < avail))) ∧
    (hasSerialWrap (batchWrap bs dc avail) = true ↔ bs ≠ 0) ∧
    (bs = 0 → batchWrap bs dc avail = parallel_stage dc avail) := by
  by_cases hbs : bs = 0 <;>
    by_cases hpar : (dc = -1 ∧ 1 < avail) ∨ 0 < dc <;>
      simp [batchWrap, parallel_stage, hasParWrap, hasSerialWrap, hbs, hpar] <;>
        omega

/-- Witness for C6 (amended) at `batch_size = 0`, `device_count = -1`,
3 available devices. -/
theorem claim_C6_amended_witness :
    (hasParWrap (batchWrap 0 (-1) 3) = true ↔ (0 < (-1 : ℤ) ∨ ((-1 : ℤ) = -1 ∧ 1 < 3))) ∧
    (hasSerialWrap (batchWrap 0 (-1) 3) = true ↔ (0 : ℕ) ≠ 0) ∧
    batchWrap 0 (-1) 3 = parallel_stage (-1) 3 :=
  ⟨(claim_C6_amended_dispatch 0 (-1) 3).1, (claim_C6_amended_dispatch 0 (-1) 3).2.1,
   (claim_C6_amended_dispatch 0 (-1) 3).2.2 rfl⟩

/-- Claim C2: the Direct NTK algorithm (materialize per-leaf Jacobians,
flatten, contract over parameters, transpose) and the Implicit NTK
algorithm (Jacobian over the dummy cotangent of the composed
vjp-at-`x2`-then-jvp-at-`x1` operator, same transposition) produce
equal results — exactly, over `ℚ`, i.e. up to floating-point summation
order — for the same Jacobian data, hence for the same
`(f, params, x1, x2)`. -/
theorem claim_C2_direct_eq_implicit (L : ℕ) (P : Fin L → ℕ) (n1 n2 d : ℕ)
    (J1 : (l : Fin L) → Fin n1 → Fin d → Fin (P l) → ℚ)
    (J2 : (l : Fin L) → Fin n2 → Fin d → Fin (P l) → ℚ) :
    direct_ntk L P n1 n2 d J1 J2 = implicit_ntk L P n1 n2 d J1 J2 := by
  funext i j a b
  have inner : ∀ (l : Fin L) (q : Fin (P l)),
      (Finset.univ.sum fun u : Fin n2 => Finset.univ.sum fun v : Fin d =>
        one_hot n2 d j b u v * J2 l u v q) = J2 l j b q := by
    intro l q
    simp [one_hot, ite_mul, Finset.sum_ite_eq']
  simp only [direct_ntk, implicit_ntk, sum_and_contract, contract, jacobian_lin,
    delta_vjp_jvp, delta_vjp]
  refine Finset.sum_congr rfl fun l _ => Finset.sum_congr rfl fun q _ => ?_
  rw [← inner l q]

/-- Claim C10: calling the kernel function returned by
`monte_carlo_kernel_fn` without a `get` argument makes the adapter
canonicalize the declared default `None`, which raises the
`"get" must be non-empty.` validation error before the wrapped function
— hence before any parameter draw or kernel computation — is invoked:
the outcome is identical for every wrapped sampler and the record-type
cache is untouched. -/
theorem claim_C10_default_get_rejected {V : Type} (fn : List String → FnOut V)
    (cache : TupleCache) :
    monte_carlo_call_default_get fn cache = (cache, AdapterOut.err emptyGetMsg) := rfl

/-- Claim C9 (code bug): on a value that is neither a plain array nor
the composite kernel record, `_flatten_kernel` raises the descriptive
`TypeError` naming the received type, but `_move_kernel_to_cpu` instead
raises `NameError` for `k`: its error branch interpolates `type(k)`
although its parameter is named `kernel`, so the promised type error is
never constructed there. -/
theorem claim_C9_flatten_vs_move_type_errors {A : Type} (flattenField : String → A → A)
    (flattenArr : A → A) (device_get : A → A) (ty : String) :
    flatten_kernel flattenField flattenArr (KernelVal.other ty)
      = .error (.typeError
        ("Expected kernel to be either a namedtuple or a np.ndarray, got " ++ ty ++ "."))
    ∧ move_kernel_to_cpu device_get (KernelVal.other ty) = .error (.nameError "k") :=
  ⟨rfl, rfl⟩

theorem ker_sampled_eq_sum {K I : Type} (split : K → K × K) (key : K)
    (sample_once : K → I → ℚ) :
    ∀ i : ℕ, ker_sampled split key sample_once i =
      (Finset.range (i + 1)).sum fun u => sample_once (draw_key split key u) := by
  intro i
  induction i with
  | zero => simp [ker_sampled]
  | succ i ih =>
    rw [Finset.sum_range_succ, ← ih]
    rfl

theorem filterMap_if_eq {γ : Type} (p : ℕ → Prop) [DecidablePred p] (g : ℕ → γ) :
    ∀ l : List ℕ, (l.filterMap fun i => if p (i + 1) then some (g (i + 1)) else none)
      = ((l.map fun i => i + 1).filter fun n => decide (p n)).map g := by
  intro l
  induction l with
  | nil => rfl
  | cons a l ih =>
    by_cases h : p (a + 1) <;>
      simp [List.filterMap_cons, List.filter_cons, h, ih]

theorem filter_mem_range_succ_eq_sort (N : Finset ℕ) (hpos : ∀ n ∈ N, 0 < n) :
    (((List.range (N.sup id)).map fun i => i + 1).filter fun n => decide (n ∈ N))
      = N.sort (· ≤ ·) := by
  have hsorted : (((List.range (N.sup id)).map fun i => i + 1).filter
      fun n => decide (n ∈ N)).Sorted (· < ·) :=
    List.Pairwise.filter _
      (List.Pairwise.map _ (fun a b h => by omega) (List.pairwise_lt_range _))
  have hnd : (((List.range (N.sup id)).map fun i => i + 1).filter
      fun n => decide (n ∈ N)).Nodup := hsorted.nodup
  have hperm : (((List.range (N.sup id)).map fun i => i + 1).filter
      fun n => decide (n ∈ N)).Perm (N.sort (· ≤ ·)) := by
    rw [List.perm_ext_iff_of_nodup hnd (Finset.sort_nodup _ _)]
    intro a
    simp only [List.mem_filter, List.mem_map, List.mem_range, Finset.mem_sort,
      decide_eq_true_eq]
    constructor
    · rintro ⟨_, ha⟩
      exact ha
    · intro ha
      refine ⟨⟨a - 1, ?_, ?_⟩, ha⟩
      · have h1 : 0 < a := hpos a ha
        have h2 : id a ≤ N.sup id := Finset.le_sup ha
        simp only [id_eq] at h2
        omega
      · have h1 : 0 < a := hpos a ha
        omega
  exact List.eq_of_perm_of_sorted hperm (hsorted.imp le_of_lt) (Finset.sort_sorted _ _)

/-- Claim C3: for every checkpoint set of positive sample counts, fixed
initial key and inputs, the Monte Carlo generator yields exactly one
estimate per checkpoint, in strictly increasing order of sample count;
the estimate at checkpoint `n` is elementwise the running sum of the
first `n` single-draw kernels divided by `n` — the same accumulating
draw sequence for all checkpoints — and the estimate at checkpoint 1 is
exactly the first draw. -/
theorem claim_C3_monte_carlo_checkpoints {K I : Type} (split : K → K × K) (key : K)
    (sample_once : K → I → ℚ) (N : Finset ℕ) (hpos : ∀ n ∈ N, 0 < n) :
    get_sampled_kernel_gen split key sample_once N
      = (N.sort (· ≤ ·)).map (fun n =>
          normalize ((Finset.range n).sum fun u => sample_once (draw_key split key u)) n) ∧
    (N.sort (· ≤ ·)).Sorted (· < ·) ∧
    (1 ∈ N →
      normalize ((Finset.range 1).sum fun u => sample_once (draw_key split key u)) 1
        = sample_once (draw_key split key 0)) := by
  refine ⟨?_, Finset.sort_sorted_lt N, ?_⟩
  · rw [get_sampled_kernel_gen, get_samples, List.filterMap_map]
    have hfun : ((fun p : ℕ × (I → ℚ) =>
          if p.1 ∈ N then some (normalize p.2 p.1) else none) ∘
        fun i => (i + 1, ker_sampled split key sample_once i))
        = fun i => if i + 1 ∈ N then
            some (normalize
              ((Finset.range (i + 1)).sum fun u => sample_once (draw_key split key u))
              (i + 1))
          else none := by
      funext i
      simp [Function.comp, ker_sampled_eq_sum]
    rw [hfun,
      filterMap_if_eq (fun n => n ∈ N)
        (fun n => normalize ((Finset.range n).sum fun u => sample_once (draw_key split key u)) n),
      filter_mem_range_succ_eq_sort N hpos]
  · intro _
    funext x
    simp [normalize, Finset.sum_range_one]

/-- Witness for C3 with checkpoint set `{1, 2, 4}`, a concrete key
chain and a concrete single-draw sampler. -/
theorem claim_C3_witness :
    (∀ n ∈ ({1, 2, 4} : Finset ℕ), 0 < n) ∧
    (get_sampled_kernel_gen (fun k : ℕ => (2 * k + 1, 2 * k + 2)) 0
        (fun k : ℕ => fun _ : ℕ => (k : ℚ)) {1, 2, 4}
      = (({1, 2, 4} : Finset ℕ).sort (· ≤ ·)).map (fun n =>
          normalize ((Finset.range n).sum fun u =>
            (fun k : ℕ => fun _ : ℕ => (k : ℚ))
              (draw_key (fun k : ℕ => (2 * k + 1, 2 * k + 2)) 0 u)) n) ∧
    (({1, 2, 4} : Finset ℕ).sort (· ≤ ·)).Sorted (· < ·) ∧
    (1 ∈ ({1, 2, 4} : Finset ℕ) →
      normalize ((Finset.range 1).sum fun u =>
          (fun k : ℕ => fun _ : ℕ => (k : ℚ))
            (draw_key (fun k : ℕ => (2 * k + 1, 2 * k + 2)) 0 u)) 1
        = (fun k : ℕ => fun _ : ℕ => (k : ℚ))
            (draw_key (fun k : ℕ => (2 * k + 1, 2 * k + 2)) 0 0))) :=
  ⟨by decide,
   claim_C3_monte_carlo_checkpoints (fun k : ℕ => (2 * k + 1, 2 * k + 2)) 0
     (fun k : ℕ => fun _ : ℕ => (k : ℚ)) {1, 2, 4} (by decide)⟩

theorem allInts_none_iff : ∀ items : List NSampleItem,
    allInts items = Option.none ↔ ∃ t, NSampleItem.nonInt t ∈ items := by
  intro items
  induction items with
  | nil => simp [allInts]
  | cons a l ih =>
    cases a with
    | int n => simp [allInts, Option.map_eq_none', ih]
    | nonInt t =>
      constructor
      · intro _
        exact ⟨t, List.mem_cons_self _ _⟩
      · intro _
        rfl

theorem allInts_some_mem : ∀ (items : List NSampleItem) (ints : List ℤ),
    allInts items = some ints → ∀ n : ℤ, (n ∈ ints ↔ NSampleItem.int n ∈ items) := by
  intro items
  induction items with
  | nil =>
    intro ints h n
    simp only [allInts, Option.some.injEq] at h
    subst h
    simp
  | cons a l ih =>
    intro ints h n
    cases a with
    | int m =>
      simp only [allInts, Option.map_eq_some'] at h
      obtain ⟨ints2, h2, rfl⟩ := h
      simp [ih ints2 h2 n]
    | nonInt t => simp [allInts] at h

theorem canon_n_samples_aux_ok (items : List NSampleItem) (gen : Bool) :
    (∃ r, canon_n_samples_aux items gen = .ok r) ↔
      ∀ x ∈ items, ∃ n, x = NSampleItem.int n ∧ 0 < n := by
  constructor
  · rintro ⟨r, hr⟩ x hx
    simp only [canon_n_samples_aux] at hr
    cases hall : allInts items.dedup with
    | none =>
      rw [hall] at hr
      dsimp only at hr
      cases hr
    | some ints =>
      rw [hall] at hr
      dsimp only at hr
      by_cases hany : (ints.any fun n => decide (n ≤ 0)) = true
      · rw [if_pos hany] at hr
        cases hr
      · cases x with
        | nonInt t =>
          have hn : allInts items.dedup = Option.none :=
            (allInts_none_iff _).mpr ⟨t, List.mem_dedup.mpr hx⟩
          rw [hall] at hn
          cases hn
        | int n =>
          refine ⟨n, rfl, ?_⟩
          have hmem : n ∈ ints :=
            (allInts_some_mem _ _ hall n).mpr (List.mem_dedup.mpr hx)
          by_contra hnp
          exact hany (List.any_eq_true.mpr ⟨n, hmem, decide_eq_true (by omega)⟩)
  · intro hallpos
    have hno : allInts items.dedup ≠ Option.none := by
      intro h
      obtain ⟨t, ht⟩ := (allInts_none_iff _).mp h
      obtain ⟨n, hn, _⟩ := hallpos _ (List.mem_dedup.mp ht)
      simp at hn
    obtain ⟨ints, hints⟩ := Option.ne_none_iff_exists'.mp hno
    refine ⟨(ints, gen), ?_⟩
    simp only [canon_n_samples_aux, hints]
    rw [if_neg ?_]
    · intro hA
      obtain ⟨n, hmem, hp⟩ := List.any_eq_true.mp hA
      have hin : NSampleItem.int n ∈ items :=
        List.mem_dedup.mp ((allInts_some_mem _ _ hints n).mp hmem)
      obtain ⟨m, hm, hmp⟩ := hallpos _ hin
      cases hm
      have := of_decide_eq_true hp
      omega

/-- Counterexample to claim C8 as stated: the empty collection passes
`_canonicalize_n_samples` without any validation error (every element of
the empty set is an integer and none is nonpositive), so the promised
rejection of an empty collection does not happen. -/
theorem claim_C8_counterexample :
    canonicalize_n_samples (NSamplesArg.coll []) = .ok ([], true) := rfl

/-- Claim C8 amended: `_canonicalize_n_samples` accepts a positive
integer, and accepts a collection exactly when each element is a
positive integer — which includes the empty collection, accepted rather
than rejected (it only fails later, at `max(n_samples)`, when the
returned kernel function is first iterated); every other input — zero,
negative values, non-integer elements, non-int non-iterables — fails
with a validation error before any sampling is set up. -/
theorem claim_C8_amended_validation (arg : NSamplesArg) :
    (∃ r, canonicalize_n_samples arg = .ok r) ↔
      (match arg with
       | .int n => 0 < n
       | .coll items => ∀ x ∈ items, ∃ n, x = NSampleItem.int n ∧ 0 < n
       | .nonIterable _ => False) := by
  cases arg with
  | int n =>
    simp only [canonicalize_n_samples]
    rw [canon_n_samples_aux_ok]
    constructor
    · intro h
      obtain ⟨m, hm, hmp⟩ := h (NSampleItem.int n) (by simp)
      cases hm
      exact hmp
    · intro hn x hx
      simp only [List.mem_singleton] at hx
      subst hx
      exact ⟨n, rfl, hn⟩
  | coll items =>
    simp only [canonicalize_n_samples]
    exact canon_n_samples_aux_ok items true
  | nonIterable t =>
    simp only [canonicalize_n_samples]
    constructor
    · rintro ⟨r, hr⟩
      cases hr
    · intro h
      exact h.elim

theorem canonicalize_get_str (s : String) (hs : s ≠ "") :
    canonicalize_get (GetArg.str s) = .ok (true, [pyLower s]) := by
  simp [canonicalize_get, hs, canonicalize_get_aux]

theorem canonicalize_get_coll (l : List String) (hl : l ≠ [])
    (hnd : (l.map fun t => pyLower t).Nodup) :
    canonicalize_get (GetArg.coll l) = .ok (false, l.map fun t => pyLower t) := by
  simp [canonicalize_get, hl, canonicalize_get_aux, hnd]

theorem named_tuple_factory_cached (name : String) (get : List String) (cache : TupleCache) :
    named_tuple_factory name get ((named_tuple_factory name get cache).1)
      = ((named_tuple_factory name get cache).1, (named_tuple_factory name get cache).2) := by
  unfold named_tuple_factory
  cases h : cacheFind (name, get) cache.entries with
  | some tyId => simp [h]
  | none => simp [h, cacheFind]

theorem getter_fn_dict_coll {V : Type} (name : String) (kern : String → V)
    (cache : TupleCache) (l : List String) (hl : l ≠ [])
    (hnd : (l.map fun t => pyLower t).Nodup) :
    getter_fn name (fun _ => FnOut.dict kern) (GetArg.coll l) cache
      = ((named_tuple_factory name (l.map fun t => pyLower t) cache).1,
         AdapterOut.record (named_tuple_factory name (l.map fun t => pyLower t) cache).2
           ((l.map fun t => pyLower t).map kern)) := by
  simp [getter_fn, canonicalize_get_coll l hl hnd]

/-- Claim C7: through the named-result adapter, a single-string `get`
returns the bare array (or the lazy sequence of bare arrays for a lazily
yielding function), while a collection `get` — including a one-element
collection — returns a record whose type is the one cached for the
requested name sequence and whose values are the corresponding arrays in
the exact order requested; a repeated call with the same name sequence
reuses the identical record type and leaves the cache unchanged. -/
theorem claim_C7_named_result_adapter {V : Type} (name : String) (kern : String → V)
    (kerns : List (String → V)) (cache : TupleCache) (s : String) (l : List String)
    (hs : s ≠ "") (hl : l ≠ []) (hnd : (l.map fun t => pyLower t).Nodup) :
    (getter_fn name (fun _ => FnOut.dict kern) (GetArg.str s) cache
        = (cache, AdapterOut.single (kern (pyLower s))) ∧
     getter_fn name (fun _ => FnOut.gen kerns) (GetArg.str s) cache
        = (cache, AdapterOut.singleGen (kerns.map fun out => out (pyLower s)))) ∧
    (getter_fn name (fun _ => FnOut.dict kern) (GetArg.coll l) cache
        = ((named_tuple_factory name (l.map fun t => pyLower t) cache).1,
           AdapterOut.record (named_tuple_factory name (l.map fun t => pyLower t) cache).2
             ((l.map fun t => pyLower t).map kern)) ∧
     getter_fn name (fun _ => FnOut.gen kerns) (GetArg.coll l) cache
        = ((named_tuple_factory name (l.map fun t => pyLower t) cache).1,
           AdapterOut.recordGen (named_tuple_factory name (l.map fun t => pyLower t) cache).2
             (kerns.map fun out => (l.map fun t => pyLower t).map out))) ∧
    getter_fn name (fun _ => FnOut.dict kern) (GetArg.coll l)
        (getter_fn name (fun _ => FnOut.dict kern) (GetArg.coll l) cache).1
      = ((getter_fn name (fun _ => FnOut.dict kern) (GetArg.coll l) cache).1,
         AdapterOut.record
           (named_tuple_factory name (l.map fun t => pyLower t) cache).2
           ((l.map fun t => pyLower t).map kern)) := by
  refine ⟨⟨?_, ?_⟩, ⟨?_, ?_⟩, ?_⟩
  · simp [getter_fn, canonicalize_get_str s hs]
  · simp [getter_fn, canonicalize_get_str s hs]
  · exact getter_fn_dict_coll name kern cache l hl hnd
  · simp [getter_fn, canonicalize_get_coll l hl hnd]
  · rw [getter_fn_dict_coll name kern cache l hl hnd]
    dsimp only
    rw [getter_fn_dict_coll name kern
        ((named_tuple_factory name (l.map fun t => pyLower t) cache).1) l hl hnd,
      named_tuple_factory_cached name (l.map fun t => pyLower t) cache]

/-- Witness for C7: `get="NTK"` (bare value) versus `get=("b","a")`
(two-field record, fields in requested order) against a fresh cache,
with a repeated call reusing the cached record type. -/
theorem claim_C7_witness :
    ("NTK" : String) ≠ "" ∧ (["b", "a"] : List String) ≠ [] ∧
    ((["b", "a"] : List String).map fun t => pyLower t).Nodup ∧
    ((getter_fn "K" (fun _ => FnOut.dict String.length) (GetArg.str "NTK") ⟨[], 0⟩
        = (⟨[], 0⟩, AdapterOut.single (String.length (pyLower "NTK"))) ∧
      getter_fn "K" (fun _ => FnOut.gen [String.length]) (GetArg.str "NTK") ⟨[], 0⟩
        = (⟨[], 0⟩, AdapterOut.singleGen
            (([String.length] : List (String → ℕ)).map fun out => out (pyLower "NTK")))) ∧
     (getter_fn "K" (fun _ => FnOut.dict String.length) (GetArg.coll ["b", "a"]) ⟨[], 0⟩
        = ((named_tuple_factory "K"
              ((["b", "a"] : List String).map fun t => pyLower t) ⟨[], 0⟩).1,
           AdapterOut.record
             (named_tuple_factory "K"
               ((["b", "a"] : List String).map fun t => pyLower t) ⟨[], 0⟩).2
             (((["b", "a"] : List String).map fun t => pyLower t).map String.length)) ∧
      getter_fn "K" (fun _ => FnOut.gen [String.length]) (GetArg.coll ["b", "a"]) ⟨[], 0⟩
        = ((named_tuple_factory "K"
              ((["b", "a"] : List String).map fun t => pyLower t) ⟨[], 0⟩).1,
           AdapterOut.recordGen
             (named_tuple_factory "K"
               ((["b", "a"] : List String).map fun t => pyLower t) ⟨[], 0⟩).2
             (([String.length] : List (String → ℕ)).map fun out =>
               ((["b", "a"] : List String).map fun t => pyLower t).map out))) ∧
     getter_fn "K" (fun _ => FnOut.dict String.length) (GetArg.coll ["b", "a"])
        (getter_fn "K" (fun _ => FnOut.dict String.length) (GetArg.coll ["b", "a"]) ⟨[], 0⟩).1
      = ((getter_fn "K" (fun _ => FnOut.dict String.length) (GetArg.coll ["b", "a"]) ⟨[], 0⟩).1,
         AdapterOut.record
           (named_tuple_factory "K"
             ((["b", "a"] : List String).map fun t => pyLower t) ⟨[], 0⟩).2
           (((["b", "a"] : List String).map fun t => pyLower t).map String.length))) :=
  ⟨by decide, by decide, by decide,
   claim_C7_named_result_adapter "K" String.length [String.length] ⟨[], 0⟩ "NTK" ["b", "a"]
     (by decide) (by decide) (by decide)⟩

/-- Witness for C8 (amended) at the concrete inputs `3` and the empty
collection. -/
theorem claim_C8_amended_witness :
    ((∃ r, canonicalize_n_samples (NSamplesArg.int 3) = .ok r) ↔ 0 < (3 : ℤ)) ∧
    ((∃ r, canonicalize_n_samples (NSamplesArg.coll []) = .ok r) ↔
      ∀ x ∈ ([] : List NSampleItem), ∃ n, x = NSampleItem.int n ∧ 0 < n) :=
  ⟨claim_C8_amended_validation (NSamplesArg.int 3),
   claim_C8_amended_validation (NSamplesArg.coll [])⟩
